import Mathlib

/-!
Shallow embedding of the domain/space algebra layer of the repository:
`src/dedalus/core/spaces.py` and `src/dedalus/core/domain.py`.

Conventions of the embedding:
* Numeric values are modelled as exact rationals (`ℚ`).
* The native bounds of `PeriodicInterval` and `ParityInterval` involve `pi`;
  native coordinates of those spaces are carried in units of `pi`
  (so `(0, 2*pi)` becomes `(0, 2)` and `(0, pi)` becomes `(0, 1)`).  Every
  affine-map formula only uses native coordinates through the ratio
  `(x - native_left) / native_length`, in which the common factor `pi`
  cancels, so all problem-space values agree with the exact real
  computation.
* Python code that can raise is embedded as `Except String`; the error
  string is the raised message (or the exception class name when the
  exception carries no message, e.g. `ZeroDivisionError`).
* Collaborator code that the repository consumes but whose source is not
  part of it (the distributor, the caching utilities, the Jacobi
  quadrature generator) is modelled from the specification; each such
  definition says so in its doc comment.
-/

namespace Dedalus

/-- A coordinate argument as passed to the `AffineCOV` maps: Python is
dynamically typed, the argument is either a string token or a number. -/
inductive CoordArg
  | str (s : String)
  | num (q : ℚ)
deriving DecidableEq, Repr

/-- Attribute record of `AffineCOV` (spaces.py): affine change-of-variables
between a native interval and a problem interval, with all derived
attributes computed in `__init__`. -/
structure AffineCOV where
  native_left : ℚ
  native_right : ℚ
  problem_left : ℚ
  problem_right : ℚ
  native_length : ℚ
  problem_length : ℚ
  jacobian : ℚ
  problem_center : ℚ
  native_center : ℚ
  stretch : ℚ
deriving DecidableEq, Repr

/-- `AffineCOV.__init__` (spaces.py).  The source has no explicit bounds
check, but `__init__` itself computes
`jacobian = native_length / problem_length` and
`stretch = problem_length / native_length`, so Python raises
`ZeroDivisionError` inside `__init__` whenever either interval is
degenerate; the embedding returns the corresponding error. -/
def AffineCOV.init (native_bounds problem_bounds : ℚ × ℚ) :
    Except String AffineCOV :=
  let native_left := native_bounds.1
  let native_right := native_bounds.2
  let native_length := native_right - native_left
  let problem_left := problem_bounds.1
  let problem_right := problem_bounds.2
  let problem_length := problem_right - problem_left
  if problem_length = 0 then .error "ZeroDivisionError"
  else if native_length = 0 then .error "ZeroDivisionError"
  else .ok
    { native_left, native_right, problem_left, problem_right,
      native_length, problem_length,
      jacobian := native_length / problem_length,
      problem_center := (problem_left + problem_right) / 2,
      native_center := (native_left + native_right) / 2,
      stretch := problem_length / native_length }

/-- Numeric branch of `AffineCOV.problem_coord` (spaces.py): normalize into
[0,1] relative to the native bounds, then rescale into the problem
bounds.  (With numpy array arguments this branch is applied elementwise by
broadcasting.) -/
def AffineCOV.problem_coordNum (c : AffineCOV) (native_coord : ℚ) : ℚ :=
  let neutral_coord := (native_coord - c.native_left) / c.native_length
  c.problem_left + neutral_coord * c.problem_length

/-- Numeric branch of `AffineCOV.native_coord` (spaces.py). -/
def AffineCOV.native_coordNum (c : AffineCOV) (problem_coord : ℚ) : ℚ :=
  let neutral_coord := (problem_coord - c.problem_left) / c.problem_length
  c.native_left + neutral_coord * c.native_length

/-- `AffineCOV.problem_coord` (spaces.py).  For a string argument the
if/elif chain over the three tokens has no else branch, so an unrecognized
string falls off the end of the function and Python returns `None`; hence
the `Option` result. -/
def AffineCOV.problem_coord (c : AffineCOV) (a : CoordArg) : Option ℚ :=
  match a with
  | .str s =>
      if s = "left" then some c.problem_left
      else if s = "right" then some c.problem_right
      else if s = "center" then some c.problem_center
      else none
  | .num q => some (c.problem_coordNum q)

/-- `AffineCOV.native_coord` (spaces.py); same fall-through shape as
`problem_coord`. -/
def AffineCOV.native_coord (c : AffineCOV) (a : CoordArg) : Option ℚ :=
  match a with
  | .str s =>
      if s = "left" then some c.native_left
      else if s = "right" then some c.native_right
      else if s = "center" then some c.native_center
      else none
  | .num q => some (c.native_coordNum q)

/-- `AffineCOV.native_jacobian` (spaces.py): constant derivative,
argument unused. -/
def AffineCOV.native_jacobian (c : AffineCOV) (_problem_coord : ℚ) : ℚ :=
  c.native_length / c.problem_length

/-- The distributor collaborator, reduced to the data this layer consumes
(`dist.dim`, the total axis count). -/
structure Dist where
  dim : ℕ
deriving DecidableEq, Repr

/-- A Python `scales` argument: `None`, a bare scalar, or an explicit
per-axis sequence. -/
inductive ScalesArg
  | none
  | scalar (s : ℚ)
  | tuple (l : List ℚ)
deriving DecidableEq, Repr

/-- Modelled from the spec: `Distributor.remedy_scales` — normalizes a
caller-supplied scale argument (`None`, a single scalar applied to all
axes, or an explicit per-axis sequence) into a fully-specified per-axis
positive tuple of length `dim`; rejects non-positive values
(InvalidScaleError, raised by the distributor collaborator). -/
def Dist.remedy_scales (d : Dist) (scales : ScalesArg) :
    Except String (List ℚ) :=
  match scales with
  | .none => .ok (List.replicate d.dim 1)
  | .scalar s =>
      if s ≤ 0 then .error "InvalidScaleError"
      else .ok (List.replicate d.dim s)
  | .tuple l =>
      if l.length ≠ d.dim then .error "InvalidScaleError"
      else if l.any (fun s => s ≤ 0) then .error "InvalidScaleError"
      else .ok l

/-- Python `int()` applied to a real value truncates toward zero. -/
def pyInt (q : ℚ) : ℤ := if 0 ≤ q then ⌊q⌋ else ⌈q⌉

/-- Tag distinguishing the `Space` subclasses (spaces.py), together with
the subclass-specific derived attributes set in each `__init__`:
`kmax` for the two periodic variants, the Jacobi weight exponents
`(a, b)` for `FiniteInterval`. -/
inductive SpaceVariant
  | constant
  | periodic (kmax : ℤ)
  | parity (kmax : ℤ)
  | finite (a b : ℚ)
deriving DecidableEq, Repr

/-- Instance attributes of a `Space` (spaces.py).  `Constant` carries no
name, bounds or COV (those attributes are simply absent on the Python
object), hence the `Option` fields; `axis` mirrors the single entry of
`axes` (every current variant is one-dimensional). -/
structure Space where
  variant : SpaceVariant
  name : Option String
  dist : Dist
  axis : ℕ
  axes : List ℕ
  shape : List ℕ
  group_shape : List ℕ
  dealias : ℚ
  bounds : Option (ℚ × ℚ)
  cov : Option AffineCOV
deriving DecidableEq, Repr

/-- Class attribute `dim = 1` on both `Constant` and `Interval`. -/
def Space.dim (_ : Space) : ℕ := 1

/-- Class attribute `constant` (True on `Constant`, False on `Interval`). -/
def Space.constant (s : Space) : Bool :=
  match s.variant with
  | .constant => true
  | _ => false

/-- Derived accessor for the `kmax` attribute set by
`PeriodicInterval.__init__` and `ParityInterval.__init__`; absent on the
other variants. -/
def Space.kmax (s : Space) : Option ℤ :=
  match s.variant with
  | .periodic k => some k
  | .parity k => some k
  | _ => none

/-- `Space.check_shape` (spaces.py): for each axis, the space shape must
be a multiple of the group shape, else
`ValueError("Space shape must be multiple of group shape.")` (the spec's
ShapeGroupMismatchError). -/
def check_shape (group_shape space_shape : List ℕ) : Except String Unit :=
  if (space_shape.zip group_shape).all (fun p => p.1 % p.2 == 0) then .ok ()
  else .error "Space shape must be multiple of group shape."

/-- `Space.grid_shape` (spaces.py), with the `Constant` override: the
base-class method remedies the scales, selects
`scales[axis : axis + dim]` and maps `int(s * n)` over the per-axis
(scale, size) pairs; `Constant.grid_shape` ignores the scales entirely
and returns the fixed shape `(1,)`. -/
def Space.grid_shape (s : Space) (scales : ScalesArg) :
    Except String (List ℤ) :=
  match s.variant with
  | .constant => .ok (s.shape.map (fun n => (n : ℤ)))
  | _ => do
      let sc ← s.dist.remedy_scales scales
      let subscales := (sc.drop s.axis).take s.dim
      .ok ((subscales.zip s.shape).map (fun p => pyInt (p.1 * (p.2 : ℚ))))

/-- Native grid of `PeriodicInterval.grids` (spaces.py), in units of `pi`:
`2 * pi * arange(N) / N` becomes `2 * i / N`. -/
def periodic_native_grid (N : ℕ) : List ℚ :=
  (List.range N).map (fun (i : ℕ) => 2 * (i : ℚ) / (N : ℚ))

/-- Native grid of `ParityInterval.grids` (spaces.py), in units of `pi`:
`pi * (arange(N) + 1/2) / N` becomes `(i + 1/2) / N`. -/
def parity_native_grid (N : ℕ) : List ℚ :=
  (List.range N).map (fun (i : ℕ) => ((i : ℚ) + 1/2) / (N : ℚ))

/-- Dynamically-typed result of `Space.grids`: `Constant`,
`PeriodicInterval` and `ParityInterval` return a tuple of per-axis
coordinate arrays, while `FiniteInterval.grids` returns the bare array
itself. -/
inductive GridsVal
  | tup (gs : List (List ℚ))
  | arr (g : List ℚ)
deriving DecidableEq, Repr

/-- `Space.grids` dispatch (spaces.py).  `build_grid` is the external
Gauss-Jacobi abscissa generator `jacobi.build_grid(N, a, b)` consumed by
`FiniteInterval.grids`; it is passed as a parameter because its source is
not part of the repository.  Each variant takes `N = grid_shape(scales)[0]`
(Python raises IndexError on an empty shape tuple) and applies
`COV.problem_coord` elementwise to its native grid (reading the absent
`COV` attribute would be an AttributeError). -/
def Space.grids (s : Space) (build_grid : ℕ → ℚ → ℚ → List ℚ)
    (scales : ScalesArg) : Except String GridsVal :=
  match s.variant with
  | .constant => .ok (.tup [[0]])
  | .periodic _ => do
      let gs ← s.grid_shape scales
      match gs with
      | [] => .error "IndexError"
      | N :: _ =>
          let some cov := s.cov | .error "AttributeError"
          .ok (.tup [(periodic_native_grid N.toNat).map cov.problem_coordNum])
  | .parity _ => do
      let gs ← s.grid_shape scales
      match gs with
      | [] => .error "IndexError"
      | N :: _ =>
          let some cov := s.cov | .error "AttributeError"
          .ok (.tup [(parity_native_grid N.toNat).map cov.problem_coordNum])
  | .finite a b => do
      let gs ← s.grid_shape scales
      match gs with
      | [] => .error "IndexError"
      | N :: _ =>
          let some cov := s.cov | .error "AttributeError"
          .ok (.arr ((build_grid N.toNat a b).map cov.problem_coordNum))

/-- `Constant.__init__` (spaces.py): stores the distributor and the single
occupied axis; shape, group shape and dealias are the fixed class
attributes. -/
def Constant.init (dist : Dist) (axis : ℕ) : Space :=
  { variant := .constant, name := none, dist, axis, axes := [axis],
    shape := [1], group_shape := [1], dealias := 1,
    bounds := none, cov := none }

/-- `Interval.__init__` (spaces.py): stores name and size, runs
`check_shape`, stores bounds/dist/axis/axes/dealias, and builds the
`AffineCOV` from the subclass's fixed native bounds.  The subclass tag
(with its derived attributes) is supplied by the subclass constructor
below. -/
def Interval.init (native_bounds : ℚ × ℚ) (group_shape : List ℕ)
    (variant : SpaceVariant) (name : String) (size : ℕ) (bounds : ℚ × ℚ)
    (dist : Dist) (axis : ℕ) (dealias : ℚ) : Except String Space := do
  check_shape group_shape [size]
  let cov ← AffineCOV.init native_bounds bounds
  .ok { variant, name := some name, dist, axis, axes := [axis],
        shape := [size], group_shape, dealias,
        bounds := some bounds, cov := some cov }

/-- `PeriodicInterval.__init__` (spaces.py): native bounds `(0, 2*pi)`
(here `(0, 2)` in units of `pi`), group shape `(2,)`, and
`kmax = (size - 1) // 2` (Python floor division). -/
def PeriodicInterval.init (name : String) (size : ℕ) (bounds : ℚ × ℚ)
    (dist : Dist) (axis : ℕ) (dealias : ℚ) : Except String Space :=
  Interval.init (0, 2) [2] (.periodic (Int.fdiv ((size : ℤ) - 1) 2))
    name size bounds dist axis dealias

/-- `ParityInterval.__init__` (spaces.py): native bounds `(0, pi)`
(here `(0, 1)` in units of `pi`), group shape `(1,)`, and
`kmax = size - 1`. -/
def ParityInterval.init (name : String) (size : ℕ) (bounds : ℚ × ℚ)
    (dist : Dist) (axis : ℕ) (dealias : ℚ) : Except String Space :=
  Interval.init (0, 1) [1] (.parity ((size : ℤ) - 1))
    name size bounds dist axis dealias

/-- `FiniteInterval.__init__` (spaces.py): native bounds `(-1, 1)`, group
shape `(1,)`, and the Jacobi weight exponents `(a, b)`. -/
def FiniteInterval.init (a b : ℚ) (name : String) (size : ℕ)
    (bounds : ℚ × ℚ) (dist : Dist) (axis : ℕ) (dealias : ℚ) :
    Except String Space :=
  Interval.init (-1, 1) [1] (.finite a b) name size bounds dist axis dealias

/-- Modelled from the spec: `Distributor.constant_spaces` — the ordered
sequence of default Constant-space objects supplied by the distributor,
one per axis. -/
def Dist.constant_spaces (d : Dist) : List Space :=
  (List.range d.dim).map (fun axis => Constant.init d axis)

/-- Modelled from the spec: `unify_attributes(spaces, 'dist')` from
`dedalus.tools.general` (not under src/) — validates that all supplied
spaces reference one distributor and returns it, raising otherwise (the
spec's AttributeMismatchError); unification of an empty collection also
fails. -/
def unify_attributes_dist (spaces : List Space) : Except String Dist :=
  match spaces with
  | [] => .error "Cannot unify attributes."
  | s :: rest =>
      if rest.all (fun t => t.dist == s.dist) then .ok s.dist
      else .error "Cannot unify attributes."

/-- Python `set.intersection(*sets)`: the intersection of ALL the sets at
once.  Python requires at least one set; the sole caller guards with
`len(spaces) > 1`.  Sets are carried as lists here; only emptiness of the
result is consumed. -/
def interAll : List (List ℕ) → List ℕ
  | [] => []
  | s :: rest => rest.foldl (fun acc t => acc.inter t) s

/-- Inner loop of `expand_spaces` (domain.py):
`for axis in space.axes: full_spaces[axis] = space`.  List item
assignment is embedded as `List.set`; Python raises IndexError for an
out-of-range axis, where `List.set` is a no-op — the claims only exercise
axes within the distributor's range, where the two agree. -/
def write_space (full_spaces : List Space) (space : Space) : List Space :=
  space.axes.foldl (fun fs axis => fs.set axis space) full_spaces

/-- Outer loop of `expand_spaces` (domain.py): overwrite each axis
occupied by a supplied space, starting from the distributor's constant
space list. -/
def write_spaces (full_spaces : List Space) (spaces : List Space) :
    List Space :=
  spaces.foldl write_space full_spaces

/-- `expand_spaces` (domain.py): verify one shared distributor, test for
overlap (NOTE: the source intersects ALL of the axis sets at once —
`set.intersection(*axes_sets)` — not pairwise), then build the full
per-axis tuple from the distributor's constant spaces. -/
def expand_spaces (spaces : List Space) : Except String (List Space) := do
  let dist ← unify_attributes_dist spaces
  if spaces.length > 1 ∧ interAll (spaces.map (fun s => s.axes)) ≠ [] then
    .error "Overlapping spaces specified."
  else
    .ok (write_spaces dist.constant_spaces spaces)

/-- Attribute record of `Domain` (domain.py): the shared distributor and
the expanded per-axis space tuple. -/
structure Domain where
  dist : Dist
  spaces : List Space
deriving DecidableEq, Repr

/-- Domain construction (domain.py): `_preprocess_args` expands the
spaces before the cache lookup, and `__init__` stores
`dist = spaces[0].dist` and the expanded tuple. -/
def Domain.build (spaces : List Space) : Except String Domain := do
  let expanded ← expand_spaces spaces
  match expanded with
  | [] => .error "IndexError"
  | s0 :: _ => .ok { dist := s0.dist, spaces := expanded }

/-- Modelled from the spec: the `CachedClass` metaclass (from
`dedalus.tools.cache`, not under src/) keys its instance cache by the
preprocessed argument tuple — here the expanded space tuple produced by
`expand_spaces` via `Domain._preprocess_args` — so two constructor calls
return the identical shared `Domain` instance exactly when their cache
keys are equal. -/
def Domain.cacheKey (spaces : List Space) : Except String (List Space) :=
  expand_spaces spaces

/-- Shared per-axis assembly loop of the cached `Domain` attributes
(domain.py): start from `np.zeros(dist.dim)` and, for each
`(axis, space)` in `enumerate(spaces)`, set
`shape[axis] = entry(space, axis - space.axes[0])`.  (Python would raise
IndexError where the `getD`/`headD` defaults fire; the claims only
exercise expanded domains, where every index is in range.) -/
def Domain.assemble (dim : ℕ) (spaces : List Space)
    (entry : Space → ℕ → ℤ) : List ℤ :=
  spaces.enum.foldl
    (fun shape p => shape.set p.1 (entry p.2 (p.1 - p.2.axes.headD 0)))
    (List.replicate dim 0)

/-- `Domain.dealias` (cached attribute, domain.py). -/
def Domain.dealias (dom : Domain) : List ℚ :=
  dom.spaces.map (fun space => space.dealias)

/-- `Domain.constant` (cached attribute, domain.py). -/
def Domain.constant (dom : Domain) : List Bool :=
  dom.spaces.map (fun space => space.constant)

/-- `Domain.group_shape` (cached attribute, domain.py):
`shape[axis] = space.group_shape[subaxis]`. -/
def Domain.group_shape (dom : Domain) : List ℤ :=
  Domain.assemble dom.dist.dim dom.spaces
    (fun space subaxis => ((space.group_shape.getD subaxis 0 : ℕ) : ℤ))

/-- `Domain.global_coeff_shape` (cached attribute, domain.py):
`shape[axis] = space.shape[subaxis]`. -/
def Domain.global_coeff_shape (dom : Domain) : List ℤ :=
  Domain.assemble dom.dist.dim dom.spaces
    (fun space subaxis => ((space.shape.getD subaxis 0 : ℕ) : ℤ))

/-- `Domain.global_grid_shape` (domain.py): remedy the scales, then the
memoized `_global_grid_shape` assembles
`shape[axis] = space.grid_shape(scales[axis])[subaxis]` per axis (each
space receives the bare scalar `scales[axis]`). -/
def Domain.global_grid_shape (dom : Domain) (scales : ScalesArg) :
    Except String (List ℤ) := do
  let sc ← dom.dist.remedy_scales scales
  dom.spaces.enum.foldlM
    (fun shape p => do
      let gs ← p.2.grid_shape (.scalar (sc.getD p.1 1))
      .ok (shape.set p.1 (gs.getD (p.1 - p.2.axes.headD 0) 0)))
    (List.replicate dom.dist.dim (0 : ℤ))

/-- Standard rounding to the nearest integer (half rounds up), used only
to state the spec's wording of `grid_shape`. -/
def roundHalf (q : ℚ) : ℤ := ⌊q + 1/2⌋

/-- The SPEC's wording of `grid_shape` (not the source's): "the integer
grid point count for each axis this space occupies, computed as
`round(scale * coefficient_count)` per axis".  Declared only to be
compared against the source's `Space.grid_shape`. -/
def grid_shape_spec (s : Space) (scale : ℚ) : List ℤ :=
  s.shape.map (fun n => roundHalf (scale * (n : ℚ)))

/-- Extraction helper for concrete fixtures: the payload of a successful
construction (the fallback branch is never reached by the fixtures below,
whose constructions succeed by computation). -/
def getSpace (e : Except String Space) : Space :=
  match e with
  | .ok s => s
  | .error _ => Constant.init ⟨0⟩ 0

/-- Extraction helper for concrete fixtures, `Domain` version. -/
def getDomain (e : Except String Domain) : Domain :=
  match e with
  | .ok d => d
  | .error _ => { dist := ⟨0⟩, spaces := [] }

/-- Fixture: a `PeriodicInterval` of size 8 on the single axis of a 1-axis
distributor, problem bounds (0, 1). -/
def perSpace8 : Space := getSpace (PeriodicInterval.init "x" 8 (0, 1) ⟨1⟩ 0 1)

/-- Fixture: a `ParityInterval` of size 1 on a 1-axis distributor. -/
def parSpace1 : Space := getSpace (ParityInterval.init "p" 1 (0, 1) ⟨1⟩ 0 1)

/-- Fixture: a `PeriodicInterval` of size 8 on axis 0 of a 2-axis
distributor. -/
def perAxis0 : Space := getSpace (PeriodicInterval.init "x" 8 (0, 1) ⟨2⟩ 0 1)

/-- Fixture: a `FiniteInterval` of size 6 (a = b = 0) on axis 1 of the
same 2-axis distributor. -/
def finAxis1 : Space := getSpace (FiniteInterval.init 0 0 "y" 6 (0, 1) ⟨2⟩ 1 1)

/-- Fixture: the two-space domain of `perAxis0` and `finAxis1`. -/
def domPF : Domain := getDomain (Domain.build [perAxis0, finAxis1])

/-- Fixture: the one-space domain of `perSpace8`. -/
def dom8 : Domain := getDomain (Domain.build [perSpace8])

/-- Fixture for the overlap claims: a space occupying axis 0 of a 2-axis
distributor. -/
def ovlA : Space := getSpace (ParityInterval.init "a" 1 (0, 1) ⟨2⟩ 0 1)

/-- Fixture: a second, distinct space also occupying axis 0. -/
def ovlB : Space := getSpace (ParityInterval.init "b" 2 (0, 1) ⟨2⟩ 0 1)

/-- Fixture: a third space occupying axis 1. -/
def ovlC : Space := getSpace (ParityInterval.init "c" 3 (0, 1) ⟨2⟩ 1 1)

/-- Extraction helper for concrete fixtures, `AffineCOV` version. -/
def getCOV (e : Except String AffineCOV) : AffineCOV :=
  match e with
  | .ok c => c
  | .error _ => ⟨0, 1, 0, 1, 1, 1, 1, 1/2, 1/2, 1⟩

/-- Fixture: the affine map from native bounds (0, 2) to problem bounds
(3, 7). -/
def covW : AffineCOV := getCOV (AffineCOV.init (0, 2) (3, 7))

/-- Fixture: a `ParityInterval` of size 3 on a 1-axis distributor. -/
def parSpace3 : Space := getSpace (ParityInterval.init "q" 3 (0, 1) ⟨1⟩ 0 1)

/-- Fixture: a placeholder for the external quadrature generator
`jacobi.build_grid` — returns N abscissas (only the count is relevant to
the claims that use it). -/
def bgZero : ℕ → ℚ → ℚ → List ℚ := fun n _ _ => List.replicate n 0

/-- Reduction of an `Except` bind on a success value. -/
theorem bind_ok_eq {α β : Type} (a : α) (f : α → Except String β) :
    (Except.ok a >>= f) = f a := rfl

/-- Reduction of an `Except` bind on an error value. -/
theorem bind_error_eq {α β : Type} (m : String) (f : α → Except String β) :
    (Except.error m >>= f) = Except.error m := rfl

/-- `check_shape` on the one-axis shapes used by every current variant. -/
theorem check_shape_single (gs size : ℕ) :
    check_shape [gs] [size] =
      if size % gs = 0 then .ok ()
      else .error "Space shape must be multiple of group shape." := by
  by_cases h : size % gs = 0 <;> simp [check_shape, h]

/-- C1: the overlap test of `expand_spaces` intersects ALL of the axis
sets at once, so while two spaces sharing axis 0 do raise
"Overlapping spaces specified.", a list of three spaces of which only the
first two overlap (axes {0}, {0}, {1}) raises nothing: the triple
intersection is empty and the second space silently overwrites the first
on axis 0, contradicting the claim (and the source's own comment "Verify
spaces are non-overlapping"). -/
theorem C1_pairwise_overlap_not_detected :
    expand_spaces [ovlA, ovlB] = .error "Overlapping spaces specified." ∧
    expand_spaces [ovlA, ovlB, ovlC] = .ok [ovlB, ovlC] ∧
    ovlA.axes = [0] ∧ ovlB.axes = [0] ∧ ovlC.axes = [1] ∧ ovlA ≠ ovlB :=
  ⟨by with_unfolding_all rfl, by with_unfolding_all rfl,
   by with_unfolding_all rfl, by with_unfolding_all rfl,
   by with_unfolding_all rfl, by with_unfolding_all decide⟩

/-- C5: for every pair of bounds with a degenerate (zero-length) native or
problem interval, `AffineCOV` construction fails inside `__init__` (the
divisions computing `jacobian` and `stretch` raise) rather than completing
construction or failing later on first use. -/
theorem C5_degenerate_interval_fails_at_construction
    (native_bounds problem_bounds : ℚ × ℚ)
    (hdeg : native_bounds.1 = native_bounds.2 ∨
            problem_bounds.1 = problem_bounds.2) :
    AffineCOV.init native_bounds problem_bounds =
      .error "ZeroDivisionError" := by
  simp only [AffineCOV.init]
  rcases hdeg with h | h
  · by_cases hp : problem_bounds.2 - problem_bounds.1 = 0
    · rw [if_pos hp]
    · rw [if_neg hp, if_pos (by rw [sub_eq_zero]; exact h.symm)]
  · rw [if_pos (by rw [sub_eq_zero]; exact h.symm)]

/-- C5 witness: the concrete degenerate native interval (0, 0) fails at
construction. -/
theorem C5_witness :
    AffineCOV.init (0, 0) (0, 1) = .error "ZeroDivisionError" :=
  C5_degenerate_interval_fails_at_construction (0, 0) (0, 1) (Or.inl rfl)

/-- C10: for every affine map and every string other than "left", "right"
or "center", both `problem_coord` and `native_coord` fall through the
conditional chain and return None. -/
theorem C10_unrecognized_token_returns_none
    (cov : AffineCOV) (s : String)
    (hl : s ≠ "left") (hr : s ≠ "right") (hc : s ≠ "center") :
    cov.problem_coord (.str s) = none ∧
    cov.native_coord (.str s) = none := by
  constructor <;>
    simp [AffineCOV.problem_coord, AffineCOV.native_coord, hl, hr, hc]

/-- C10 witness: the unrecognized token "middle" is silently absorbed. -/
theorem C10_witness :
    covW.problem_coord (.str "middle") = none ∧
    covW.native_coord (.str "middle") = none :=
  C10_unrecognized_token_returns_none covW "middle"
    (by decide) (by decide) (by decide)

/-- C6: every successfully constructed affine map round-trips numeric
coordinates exactly (in exact arithmetic), and maps the symbolic tokens
"left"/"right"/"center" in both directions onto exactly the configured
endpoints and centers of the target interval. -/
theorem C6_affine_roundtrip
    (native_bounds problem_bounds : ℚ × ℚ) (cov : AffineCOV)
    (hok : AffineCOV.init native_bounds problem_bounds = .ok cov) :
    (∀ x : ℚ, cov.native_coordNum (cov.problem_coordNum x) = x) ∧
    (∀ y : ℚ, cov.problem_coordNum (cov.native_coordNum y) = y) ∧
    cov.problem_coord (.str "left") = some problem_bounds.1 ∧
    cov.problem_coord (.str "right") = some problem_bounds.2 ∧
    cov.problem_coord (.str "center") =
      some ((problem_bounds.1 + problem_bounds.2) / 2) ∧
    cov.native_coord (.str "left") = some native_bounds.1 ∧
    cov.native_coord (.str "right") = some native_bounds.2 ∧
    cov.native_coord (.str "center") =
      some ((native_bounds.1 + native_bounds.2) / 2) := by
  simp only [AffineCOV.init] at hok
  by_cases hp : problem_bounds.2 - problem_bounds.1 = 0
  · rw [if_pos hp] at hok; cases hok
  rw [if_neg hp] at hok
  by_cases hn : native_bounds.2 - native_bounds.1 = 0
  · rw [if_pos hn] at hok; cases hok
  rw [if_neg hn] at hok
  injection hok with h2
  subst h2
  refine ⟨?_, ?_, rfl, rfl, rfl, rfl, rfl, rfl⟩
  · intro x
    simp only [AffineCOV.native_coordNum, AffineCOV.problem_coordNum]
    field_simp
    ring
  · intro y
    simp only [AffineCOV.native_coordNum, AffineCOV.problem_coordNum]
    field_simp
    ring

/-- C6 witness: the concrete map from native (0, 2) to problem (3, 7). -/
theorem C6_witness :
    (∀ x : ℚ, covW.native_coordNum (covW.problem_coordNum x) = x) ∧
    (∀ y : ℚ, covW.problem_coordNum (covW.native_coordNum y) = y) ∧
    covW.problem_coord (.str "left") = some 3 ∧
    covW.problem_coord (.str "right") = some 7 ∧
    covW.problem_coord (.str "center") = some ((3 + 7) / 2) ∧
    covW.native_coord (.str "left") = some 0 ∧
    covW.native_coord (.str "right") = some 2 ∧
    covW.native_coord (.str "center") = some ((0 + 2) / 2) :=
  C6_affine_roundtrip (0, 2) (3, 7) covW (by with_unfolding_all rfl)

/-- C8: for every interval variant, construction with a coefficient count
that is not an exact multiple of the variant's group shape raises the
shape/group mismatch error, and every successfully constructed space has
a compliant size (for the group-shape-1 variants every size is trivially
compliant). -/
theorem C8_size_multiple_of_group_shape
    (name : String) (size : ℕ) (bounds : ℚ × ℚ) (d : Dist) (axis : ℕ)
    (dealias : ℚ) :
    (size % 2 ≠ 0 →
      PeriodicInterval.init name size bounds d axis dealias =
        .error "Space shape must be multiple of group shape.") ∧
    (∀ sp, PeriodicInterval.init name size bounds d axis dealias = .ok sp →
      size % 2 = 0 ∧ sp.shape = [size] ∧ sp.group_shape = [2]) ∧
    (∀ sp, ParityInterval.init name size bounds d axis dealias = .ok sp →
      size % 1 = 0 ∧ sp.shape = [size] ∧ sp.group_shape = [1]) ∧
    (∀ a b sp,
      FiniteInterval.init a b name size bounds d axis dealias = .ok sp →
      size % 1 = 0 ∧ sp.shape = [size] ∧ sp.group_shape = [1]) := by
  refine ⟨?_, ?_, ?_, ?_⟩
  · intro h
    simp only [PeriodicInterval.init, Interval.init, check_shape_single,
      if_neg h, bind_error_eq]
  · intro sp hok
    simp only [PeriodicInterval.init, Interval.init, check_shape_single]
      at hok
    by_cases h : size % 2 = 0
    · rw [if_pos h, bind_ok_eq] at hok
      cases hcov : AffineCOV.init (0, 2) bounds with
      | error m => rw [hcov, bind_error_eq] at hok; cases hok
      | ok c =>
          rw [hcov, bind_ok_eq] at hok
          injection hok with h2
          subst h2
          exact ⟨h, rfl, rfl⟩
    · rw [if_neg h, bind_error_eq] at hok; cases hok
  · intro sp hok
    simp only [ParityInterval.init, Interval.init, check_shape_single,
      if_pos (Nat.mod_one size), bind_ok_eq] at hok
    cases hcov : AffineCOV.init (0, 1) bounds with
    | error m => rw [hcov, bind_error_eq] at hok; cases hok
    | ok c =>
        rw [hcov, bind_ok_eq] at hok
        injection hok with h2
        subst h2
        exact ⟨Nat.mod_one size, rfl, rfl⟩
  · intro a b sp hok
    simp only [FiniteInterval.init, Interval.init, check_shape_single,
      if_pos (Nat.mod_one size), bind_ok_eq] at hok
    cases hcov : AffineCOV.init (-1, 1) bounds with
    | error m => rw [hcov, bind_error_eq] at hok; cases hok
    | ok c =>
        rw [hcov, bind_ok_eq] at hok
        injection hok with h2
        subst h2
        exact ⟨Nat.mod_one size, rfl, rfl⟩

/-- C8 witness: a `PeriodicInterval` of size 7 (group shape 2) fails at
construction. -/
theorem C8_witness :
    PeriodicInterval.init "x" 7 (0, 1) ⟨1⟩ 0 1 =
      .error "Space shape must be multiple of group shape." :=
  (C8_size_multiple_of_group_shape "x" 7 (0, 1) ⟨1⟩ 0 1).1 (by decide)

/-- Evaluation of the base-class `grid_shape` on a positive scalar scale,
for a one-axis non-constant space whose axis lies within the
distributor's range (shared by several claims). -/
theorem grid_shape_scalar_eval (s : Space)
    (hnc : s.variant ≠ SpaceVariant.constant)
    (N : ℕ) (hshape : s.shape = [N]) (hax : s.axis < s.dist.dim)
    (scale : ℚ) (hpos : 0 < scale) :
    s.grid_shape (.scalar scale) = .ok [pyInt (scale * (N : ℚ))] := by
  have hmin : min (Space.dim s) (s.dist.dim - s.axis) = 1 := by
    simp only [Space.dim]
    omega
  rcases hv : s.variant with _ | k | k | ⟨a, b⟩
  · exact absurd hv hnc
  all_goals
    simp only [Space.grid_shape, hv, Dist.remedy_scales,
      if_neg (not_le.mpr hpos), bind_ok_eq, hshape]
    simp [List.drop_replicate, List.take_replicate, hmin]

/-- C2 counterexample: for the non-Constant space `parSpace1`
(ParityInterval of size 1) and normalized positive scale 3/2, the source's
`grid_shape` yields int(1.5) = 1 while the claimed round(1.5) yields 2. -/
theorem C2_counterexample_truncation_vs_rounding :
    parSpace1.grid_shape (.scalar (3/2)) = .ok [1] ∧
    grid_shape_spec parSpace1 (3/2) = [2] ∧
    parSpace1.constant = false ∧ parSpace1.shape = [1] ∧
    ((1 : ℤ) :: []) ≠ [2] :=
  ⟨by with_unfolding_all rfl, by with_unfolding_all rfl,
   by with_unfolding_all rfl, by with_unfolding_all rfl, by decide⟩

/-- C2 (amended): for every non-Constant space with coefficient size N
and every positive scalar scale, `grid_shape` returns int(scale*N) — the
TRUNCATION ⌊scale*N⌋ for these positive products, not round(scale*N);
the Constant variant ignores the scale and always returns (1,); and the
concrete consequence still holds: a PeriodicInterval of size 8 at scale
1.5 has global_grid_shape((1.5,))[0] == 12. -/
theorem C2_grid_shape_truncates
    (s : Space) (hnc : s.variant ≠ SpaceVariant.constant)
    (N : ℕ) (hshape : s.shape = [N]) (hax : s.axis < s.dist.dim)
    (scale : ℚ) (hpos : 0 < scale) :
    s.grid_shape (.scalar scale) = .ok [⌊scale * (N : ℚ)⌋] ∧
    (∀ (d : Dist) (axis : ℕ) (sc : ScalesArg),
      (Constant.init d axis).grid_shape sc = .ok [1]) ∧
    dom8.global_grid_shape (.tuple [3/2]) = .ok [12] := by
  refine ⟨?_, fun d axis sc => rfl, by with_unfolding_all rfl⟩
  rw [grid_shape_scalar_eval s hnc N hshape hax scale hpos]
  have hfloor : pyInt (scale * (N : ℚ)) = ⌊scale * (N : ℚ)⌋ := by
    rw [pyInt, if_pos (by positivity)]
  rw [hfloor]

/-- C2 witness: the amended statement at the concrete space `parSpace3`
(ParityInterval of size 3) and scale 3/2, where ⌊4.5⌋ = 4. -/
theorem C2_witness :
    (parSpace3.grid_shape (.scalar (3/2)) = .ok [⌊(3/2 : ℚ) * ((3 : ℕ) : ℚ)⌋] ∧
    (∀ (d : Dist) (axis : ℕ) (sc : ScalesArg),
      (Constant.init d axis).grid_shape sc = .ok [1]) ∧
    dom8.global_grid_shape (.tuple [3/2]) = .ok [12]) :=
  C2_grid_shape_truncates parSpace3 (by with_unfolding_all decide) 3
    (by with_unfolding_all rfl) (by with_unfolding_all decide) (3/2)
    (by norm_num)

/-- Python floor division of a natural-number cast by 2. -/
theorem fdiv_two_natCast (m : ℕ) :
    Int.fdiv ((m : ℤ)) 2 = ((m / 2 : ℕ) : ℤ) := by
  cases m with
  | zero => rfl
  | succ k => rfl

/-- Pointwise description of the periodic native grid. -/
theorem periodic_native_grid_getD (N i : ℕ) (hi : i < N) (dflt : ℚ) :
    (periodic_native_grid N).getD i dflt = 2 * (i : ℚ) / (N : ℚ) := by
  rw [List.getD_eq_getElem?_getD, periodic_native_grid,
    List.getElem?_map, List.getElem?_range hi, Option.map_some',
    Option.getD_some]

/-- C7: every constructible PeriodicInterval of size N ≥ 1 has
kmax = (N-1)//2 and group shape (2,); at scale 1 its grid shape is N and
its grid applies the affine map pointwise to the native grid
2·pi·i/N for i in [0, N) (carried in units of pi), which has exactly N
evenly spaced points whose first entry is native coordinate 0. -/
theorem C7_periodic_interval_native_grid
    (name : String) (N : ℕ) (bounds : ℚ × ℚ) (d : Dist) (axis : ℕ)
    (dealias : ℚ) (sp : Space)
    (hok : PeriodicInterval.init name N bounds d axis dealias = .ok sp)
    (hN : 1 ≤ N) (hax : axis < d.dim) (bg : ℕ → ℚ → ℚ → List ℚ) :
    sp.kmax = some (((N - 1) / 2 : ℕ) : ℤ) ∧
    sp.group_shape = [2] ∧
    sp.grid_shape (.scalar 1) = .ok [(N : ℤ)] ∧
    (∃ cov, sp.cov = some cov ∧
      sp.grids bg (.scalar 1) =
        .ok (.tup [(periodic_native_grid N).map cov.problem_coordNum])) ∧
    (periodic_native_grid N).length = N ∧
    (∀ i, i < N →
      (periodic_native_grid N).getD i 0 = 2 * (i : ℚ) / (N : ℚ)) ∧
    (periodic_native_grid N).getD 0 1 = 0 ∧
    (∀ i, i + 1 < N →
      (periodic_native_grid N).getD (i + 1) 0 -
        (periodic_native_grid N).getD i 0 = 2 / (N : ℚ)) := by
  have hNQ : (N : ℚ) ≠ 0 := Nat.cast_ne_zero.mpr (by omega)
  have hone : pyInt (1 * (N : ℚ)) = (N : ℤ) := by
    simp [pyInt]
  simp only [PeriodicInterval.init, Interval.init, check_shape_single]
    at hok
  by_cases h2 : N % 2 = 0
  swap
  · rw [if_neg h2, bind_error_eq] at hok; cases hok
  rw [if_pos h2, bind_ok_eq] at hok
  cases hcov : AffineCOV.init (0, 2) bounds with
  | error m => rw [hcov, bind_error_eq] at hok; cases hok
  | ok c =>
  rw [hcov, bind_ok_eq] at hok
  injection hok with hsp
  subst hsp
  have hgs : Space.grid_shape
      { variant := .periodic (Int.fdiv ((N : ℤ) - 1) 2), name := some name,
        dist := d, axis := axis, axes := [axis], shape := [N],
        group_shape := [2], dealias := dealias, bounds := some bounds,
        cov := some c } (.scalar 1) = .ok [(N : ℤ)] := by
    rw [grid_shape_scalar_eval _ (by simp) N rfl hax 1 one_pos, hone]
  refine ⟨?_, rfl, hgs, ⟨c, rfl, ?_⟩, ?_, ?_, ?_, ?_⟩
  · have h1 : (N : ℤ) - 1 = ((N - 1 : ℕ) : ℤ) := by omega
    simp only [Space.kmax, h1, fdiv_two_natCast]
  · simp only [Space.grids, hgs, bind_ok_eq, Int.toNat_natCast]
  · simp only [periodic_native_grid, List.length_map, List.length_range]
  · intro i hi
    rw [periodic_native_grid_getD N i hi]
  · rw [periodic_native_grid_getD N 0 hN]
    norm_num
  · intro i hi
    rw [periodic_native_grid_getD N (i + 1) hi,
      periodic_native_grid_getD N i (by omega)]
    push_cast
    field_simp
    ring

/-- C7 witness: the concrete PeriodicInterval of size 8 (`perSpace8`). -/
theorem C7_witness :
    perSpace8.kmax = some (((8 - 1) / 2 : ℕ) : ℤ) ∧
    perSpace8.group_shape = [2] ∧
    perSpace8.grid_shape (.scalar 1) = .ok [(8 : ℤ)] ∧
    (∃ cov, perSpace8.cov = some cov ∧
      perSpace8.grids bgZero (.scalar 1) =
        .ok (.tup [(periodic_native_grid 8).map cov.problem_coordNum])) ∧
    (periodic_native_grid 8).length = 8 ∧
    (∀ i, i < 8 →
      (periodic_native_grid 8).getD i 0 = 2 * (i : ℚ) / (8 : ℚ)) ∧
    (periodic_native_grid 8).getD 0 1 = 0 ∧
    (∀ i, i + 1 < 8 →
      (periodic_native_grid 8).getD (i + 1) 0 -
        (periodic_native_grid 8).getD i 0 = 2 / (8 : ℚ)) :=
  C7_periodic_interval_native_grid "x" 8 (0, 1) ⟨1⟩ 0 1 perSpace8
    (by with_unfolding_all rfl) (by decide) (by decide) bgZero

/-- Indices below the running offset of the per-axis assembly fold keep
their base value: every write of the fold over `enumFrom m` targets an
index of at least m. -/
theorem assemble_foldl_getElem?_lt (entry : Space → ℕ → ℤ)
    (rest : List Space) :
    ∀ (m : ℕ) (b : List ℤ) (j : ℕ), j < m →
    ((rest.enumFrom m).foldl
      (fun shape p => shape.set p.1 (entry p.2 (p.1 - p.2.axes.headD 0)))
      b)[j]? = b[j]? := by
  induction rest with
  | nil => intro m b j hj; rfl
  | cons hd tl ih =>
      intro m b j hj
      rw [List.enumFrom_cons, List.foldl_cons, ih (m + 1) _ j (by omega),
        List.getElem?_set_ne (by omega)]

/-- Pointwise description of the per-axis assembly fold: the entry at
index n + i is produced by the space at position i of the space list. -/
theorem assemble_foldl_getElem? (entry : Space → ℕ → ℤ)
    (spaces : List Space) :
    ∀ (n : ℕ) (b : List ℤ) (i : ℕ) (sp : Space),
    spaces[i]? = some sp → n + i < b.length →
    ((spaces.enumFrom n).foldl
      (fun shape p => shape.set p.1 (entry p.2 (p.1 - p.2.axes.headD 0)))
      b)[n + i]? = some (entry sp ((n + i) - sp.axes.headD 0)) := by
  induction spaces with
  | nil => intro n b i sp h hlen; simp at h
  | cons hd tl ih =>
      intro n b i sp h hlen
      rw [List.enumFrom_cons, List.foldl_cons]
      cases i with
      | zero =>
          obtain rfl : hd = sp := by simpa using h
          rw [assemble_foldl_getElem?_lt entry tl (n + 1) _ (n + 0)
            (by omega)]
          simpa using List.getElem?_set_self (by omega : n < b.length)
      | succ j =>
          have h' : tl[j]? = some sp := by simpa using h
          have hlen' : (n + 1) + j <
              (b.set n (entry hd (n - hd.axes.headD 0))).length := by
            rw [List.length_set]; omega
          have hidx : n + (j + 1) = (n + 1) + j := by omega
          rw [hidx]
          exact ih (n + 1) _ j sp h' hlen'

/-- Pointwise description of `Domain.assemble`. -/
theorem assemble_getElem? (dim : ℕ) (spaces : List Space)
    (entry : Space → ℕ → ℤ) (i : ℕ) (sp : Space)
    (hget : spaces[i]? = some sp) (hi : i < dim) :
    (Domain.assemble dim spaces entry)[i]? =
      some (entry sp (i - sp.axes.headD 0)) := by
  have h := assemble_foldl_getElem? entry spaces 0 (List.replicate dim 0)
    i sp hget (by simpa using hi)
  simpa [Domain.assemble, List.enum] using h

/-- C9: `group_shape` and `global_coeff_shape` are assembled per axis by
asking the space occupying that axis for its sub-entry at offset
(axis - first occupied axis of that space); in particular the
PeriodicInterval(8) x FiniteInterval(6) domain on a 2-axis distributor
has global_coeff_shape (8, 6) and group_shape (2, 1). -/
theorem C9_per_axis_assembly
    (dom : Domain) (axis : ℕ) (space : Space)
    (hget : dom.spaces[axis]? = some space) (hax : axis < dom.dist.dim) :
    dom.group_shape[axis]? =
      some ((space.group_shape.getD (axis - space.axes.headD 0) 0 : ℕ) : ℤ) ∧
    dom.global_coeff_shape[axis]? =
      some ((space.shape.getD (axis - space.axes.headD 0) 0 : ℕ) : ℤ) ∧
    domPF.global_coeff_shape = [8, 6] ∧
    domPF.group_shape = [2, 1] :=
  ⟨assemble_getElem? dom.dist.dim dom.spaces _ axis space hget hax,
   assemble_getElem? dom.dist.dim dom.spaces _ axis space hget hax,
   by with_unfolding_all rfl, by with_unfolding_all rfl⟩

/-- C9 witness: axis 1 of the concrete two-space domain is served by the
FiniteInterval at offset 1 - 1 = 0. -/
theorem C9_witness :
    domPF.group_shape[1]? =
      some ((finAxis1.group_shape.getD (1 - finAxis1.axes.headD 0) 0 : ℕ) : ℤ) ∧
    domPF.global_coeff_shape[1]? =
      some ((finAxis1.shape.getD (1 - finAxis1.axes.headD 0) 0 : ℕ) : ℤ) ∧
    domPF.global_coeff_shape = [8, 6] ∧
    domPF.group_shape = [2, 1] :=
  C9_per_axis_assembly domPF 1 finAxis1 (by with_unfolding_all rfl)
    (by with_unfolding_all decide)

/-- The inner axis-write fold preserves the list length. -/
theorem foldl_set_length (l : List ℕ) (sp : Space) :
    ∀ fs : List Space,
    (l.foldl (fun fs2 axis => fs2.set axis sp) fs).length = fs.length := by
  induction l with
  | nil => intro fs; rfl
  | cons a as ih => intro fs; rw [List.foldl_cons, ih, List.length_set]

/-- `write_space` preserves the list length. -/
theorem write_space_length (fs : List Space) (sp : Space) :
    (write_space fs sp).length = fs.length :=
  foldl_set_length sp.axes sp fs

/-- Indices outside a space's axes keep their value across the inner
axis-write fold. -/
theorem foldl_set_getElem?_of_not_mem (sp : Space) (l : List ℕ) :
    ∀ (fs : List Space) (i : ℕ), i ∉ l →
    (l.foldl (fun fs2 axis => fs2.set axis sp) fs)[i]? = fs[i]? := by
  induction l with
  | nil => intro fs i h; rfl
  | cons a as ih =>
      intro fs i h
      have hne : a ≠ i := by
        intro he
        subst he
        exact h (List.mem_cons_self a as)
      rw [List.foldl_cons, ih _ i (fun hm => h (List.mem_cons_of_mem a hm)),
        List.getElem?_set_ne hne]

/-- An index among a space's axes holds that space after the inner
axis-write fold. -/
theorem foldl_set_getElem?_of_mem (sp : Space) (l : List ℕ) :
    ∀ (fs : List Space) (i : ℕ), i ∈ l → i < fs.length →
    (l.foldl (fun fs2 axis => fs2.set axis sp) fs)[i]? = some sp := by
  induction l with
  | nil => intro fs i hm hlen; cases hm
  | cons a as ih =>
      intro fs i hm hlen
      rw [List.foldl_cons]
      by_cases has : i ∈ as
      · exact ih _ i has (by rw [List.length_set]; exact hlen)
      · have hia : i = a := by
          rcases List.mem_cons.mp hm with h | h
          · exact h
          · exact absurd h has
        subst hia
        rw [foldl_set_getElem?_of_not_mem sp as _ i has,
          List.getElem?_set_self hlen]

/-- `write_spaces` preserves the list length. -/
theorem write_spaces_length (l : List Space) :
    ∀ fs : List Space, (write_spaces fs l).length = fs.length := by
  induction l with
  | nil => intro fs; rfl
  | cons hd tl ih =>
      intro fs
      rw [write_spaces, List.foldl_cons, ← write_spaces, ih,
        write_space_length]

/-- An index claimed by no space in the list keeps its base value across
`write_spaces`. -/
theorem write_spaces_getElem?_of_not_mem (l : List Space) :
    ∀ (fs : List Space) (i : ℕ), (∀ sp ∈ l, i ∉ sp.axes) →
    (write_spaces fs l)[i]? = fs[i]? := by
  induction l with
  | nil => intro fs i h; rfl
  | cons hd tl ih =>
      intro fs i h
      rw [write_spaces, List.foldl_cons, ← write_spaces,
        ih _ i (fun sp hsp => h sp (List.mem_cons_of_mem hd hsp))]
      exact foldl_set_getElem?_of_not_mem hd hd.axes fs i
        (h hd (List.mem_cons_self hd tl))

/-- Under pairwise-disjoint axis sets, an index claimed by a space of the
list holds exactly that space after `write_spaces`. -/
theorem write_spaces_getElem?_of_mem (l : List Space) :
    ∀ (fs : List Space) (i : ℕ) (sp : Space), sp ∈ l → i ∈ sp.axes →
    l.Pairwise (fun a b => ∀ x ∈ a.axes, x ∉ b.axes) →
    i < fs.length →
    (write_spaces fs l)[i]? = some sp := by
  induction l with
  | nil => intro fs i sp hsp; cases hsp
  | cons hd tl ih =>
      intro fs i sp hsp hi hdisj hlen
      obtain ⟨hhd, htl⟩ := List.pairwise_cons.mp hdisj
      rw [write_spaces, List.foldl_cons, ← write_spaces]
      rcases List.mem_cons.mp hsp with rfl | hmem
      · rw [write_spaces_getElem?_of_not_mem tl _ i
          (fun b hb => hhd b hb i hi)]
        exact foldl_set_getElem?_of_mem sp sp.axes fs i hi hlen
      · exact ih _ i sp hmem hi htl
          (by rw [write_space_length]; exact hlen)

/-- Evaluation of the spec-modelled `unify_attributes` when every space
shares one distributor. -/
theorem unify_attributes_dist_eq (d : Dist) (spaces : List Space)
    (hne : spaces ≠ []) (hall : ∀ sp ∈ spaces, sp.dist = d) :
    unify_attributes_dist spaces = .ok d := by
  cases spaces with
  | nil => exact absurd rfl hne
  | cons s rest =>
      have hs : s.dist = d := hall s (List.mem_cons_self s rest)
      have hcond : rest.all (fun t => t.dist == s.dist) = true := by
        rw [List.all_eq_true]
        intro t ht
        rw [beq_iff_eq, hall t (List.mem_cons_of_mem s ht), hs]
      calc unify_attributes_dist (s :: rest)
          = if rest.all (fun t => t.dist == s.dist) then Except.ok s.dist
            else Except.error "Cannot unify attributes." := rfl
        _ = Except.ok s.dist := if_pos hcond
        _ = Except.ok d := by rw [hs]

/-- A list intersection of disjoint lists is empty. -/
theorem inter_eq_nil_of_disjoint (l1 l2 : List ℕ)
    (h : ∀ x ∈ l1, x ∉ l2) : l1.inter l2 = [] := by
  simp only [List.inter]
  rw [List.filter_eq_nil_iff]
  intro a ha
  simpa using h a ha

/-- Folding intersections from the empty list stays empty. -/
theorem foldl_inter_nil (ls : List (List ℕ)) :
    ls.foldl (fun acc t => acc.inter t) [] = [] := by
  induction ls with
  | nil => rfl
  | cons hd tl ih =>
      rw [List.foldl_cons]
      exact ih

/-- The all-sets intersection is empty as soon as the first two sets are
disjoint. -/
theorem interAll_cons_cons (A B : List ℕ) (rest : List (List ℕ))
    (h : ∀ x ∈ A, x ∉ B) : interAll (A :: B :: rest) = [] := by
  show (B :: rest).foldl (fun acc t => acc.inter t) A = []
  rw [List.foldl_cons, inter_eq_nil_of_disjoint A B h, foldl_inter_nil]

/-- `expand_spaces` succeeds on a nonempty list of spaces sharing one
distributor with pairwise-disjoint axis sets, producing the axis-write
fold over the distributor's constant spaces. -/
theorem expand_spaces_ok (d : Dist) (s : List Space)
    (hne : s ≠ []) (hdist : ∀ sp ∈ s, sp.dist = d)
    (hdisj : s.Pairwise (fun a b => ∀ x ∈ a.axes, x ∉ b.axes)) :
    expand_spaces s = .ok (write_spaces d.constant_spaces s) := by
  have hcond :
      ¬(s.length > 1 ∧ interAll (s.map (fun sp => sp.axes)) ≠ []) := by
    rintro ⟨hlen, hint⟩
    obtain ⟨a, tl, rfl⟩ := List.exists_cons_of_ne_nil hne
    cases tl with
    | nil => simp at hlen
    | cons b rest =>
        apply hint
        have hab : ∀ x ∈ a.axes, x ∉ b.axes :=
          (List.pairwise_cons.mp hdisj).1 b (List.mem_cons_self b rest)
        exact interAll_cons_cons a.axes b.axes _ hab
  rw [expand_spaces, unify_attributes_dist_eq d s hne hdist, bind_ok_eq,
    if_neg hcond]

/-- Under the hypotheses of C4, the expanded space tuples of two
permuted space lists agree pointwise, hence are equal. -/
theorem write_spaces_eq_of_perm (d : Dist) (s1 s2 : List Space)
    (hperm : s1.Perm s2)
    (hax : ∀ sp ∈ s1, ∀ a ∈ sp.axes, a < d.dim)
    (hdisj : s1.Pairwise (fun a b => ∀ x ∈ a.axes, x ∉ b.axes))
    (hdisj2 : s2.Pairwise (fun a b => ∀ x ∈ a.axes, x ∉ b.axes)) :
    write_spaces d.constant_spaces s1 = write_spaces d.constant_spaces s2 := by
  have hlen1 : (Dist.constant_spaces d).length = d.dim := by
    simp [Dist.constant_spaces]
  apply List.ext_getElem?
  intro i
  by_cases hmem : ∃ sp ∈ s1, i ∈ sp.axes
  · obtain ⟨sp, hsp, hi⟩ := hmem
    rw [write_spaces_getElem?_of_mem s1 _ i sp hsp hi hdisj
        (by rw [hlen1]; exact hax sp hsp i hi),
      write_spaces_getElem?_of_mem s2 _ i sp (hperm.subset hsp) hi hdisj2
        (by rw [hlen1]; exact hax sp hsp i hi)]
  · push_neg at hmem
    rw [write_spaces_getElem?_of_not_mem s1 _ i hmem,
      write_spaces_getElem?_of_not_mem s2 _ i
        (fun sp hsp => hmem sp (hperm.symm.subset hsp))]

/-- C4: Domain construction is order-independent: for every nonempty set
of non-overlapping spaces sharing one distributor (occupying in-range
axes), construction succeeds, and any permutation of the space list
yields the same expanded per-axis cache key — hence, by the CachedClass
semantics, the identical shared Domain instance. -/
theorem C4_domain_construction_order_independent
    (d : Dist) (s1 s2 : List Space)
    (hperm : s1.Perm s2) (hne : s1 ≠ [])
    (hdist : ∀ sp ∈ s1, sp.dist = d)
    (hax : ∀ sp ∈ s1, ∀ a ∈ sp.axes, a < d.dim)
    (hdisj : s1.Pairwise (fun a b => ∀ x ∈ a.axes, x ∉ b.axes)) :
    (∃ full, Domain.cacheKey s1 = .ok full) ∧
    Domain.cacheKey s1 = Domain.cacheKey s2 ∧
    Domain.build s1 = Domain.build s2 := by
  have hsym : ∀ {a b : Space},
      (∀ x ∈ a.axes, x ∉ b.axes) → ∀ x ∈ b.axes, x ∉ a.axes :=
    fun hab x hxb hxa => hab x hxa hxb
  have hdisj2 : s2.Pairwise (fun a b => ∀ x ∈ a.axes, x ∉ b.axes) :=
    (hperm.pairwise_iff hsym).mp hdisj
  have hne2 : s2 ≠ [] := by
    intro h
    rw [h] at hperm
    exact hne (List.perm_nil.mp hperm)
  have hdist2 : ∀ sp ∈ s2, sp.dist = d :=
    fun sp hsp => hdist sp (hperm.symm.subset hsp)
  have h1 := expand_spaces_ok d s1 hne hdist hdisj
  have h2 := expand_spaces_ok d s2 hne2 hdist2 hdisj2
  have heq := write_spaces_eq_of_perm d s1 s2 hperm hax hdisj hdisj2
  refine ⟨⟨_, h1⟩, ?_, ?_⟩
  · rw [Domain.cacheKey, Domain.cacheKey, h1, h2, heq]
  · rw [Domain.build, Domain.build, h1, h2, heq]

/-- C4 witness: the two-space domain of `perAxis0` and `finAxis1`
constructed in both orders. -/
theorem C4_witness :
    (∃ full, Domain.cacheKey [perAxis0, finAxis1] = .ok full) ∧
    Domain.cacheKey [perAxis0, finAxis1] =
      Domain.cacheKey [finAxis1, perAxis0] ∧
    Domain.build [perAxis0, finAxis1] = Domain.build [finAxis1, perAxis0] :=
  C4_domain_construction_order_independent ⟨2⟩ [perAxis0, finAxis1]
    [finAxis1, perAxis0] (List.Perm.swap finAxis1 perAxis0 [])
    (by simp) (by with_unfolding_all decide) (by with_unfolding_all decide)
    (by with_unfolding_all decide)

/-- C3: `grids` returns one coordinate sequence per occupied axis, as a
one-element tuple, for Constant, PeriodicInterval and ParityInterval —
but `FiniteInterval.grids` returns the bare coordinate array itself (no
tuple wrapping), contradicting the claim, the base class (whose
`local_grids` zips the grids tuple by axis) and the sibling variants. -/
theorem C3_grids_tuple_shape :
    (∀ (d : Dist) (axis : ℕ) (bg : ℕ → ℚ → ℚ → List ℚ) (sc : ScalesArg),
      ∃ g : List ℚ, (Constant.init d axis).grids bg sc = .ok (.tup [g])) ∧
    (∀ (sp : Space) (k : ℤ) (bg : ℕ → ℚ → ℚ → List ℚ) (sc : ScalesArg)
      (v : GridsVal), sp.variant = .periodic k →
      sp.grids bg sc = .ok v → ∃ g, v = .tup [g]) ∧
    (∀ (sp : Space) (k : ℤ) (bg : ℕ → ℚ → ℚ → List ℚ) (sc : ScalesArg)
      (v : GridsVal), sp.variant = .parity k →
      sp.grids bg sc = .ok v → ∃ g, v = .tup [g]) ∧
    (∀ (sp : Space) (a b : ℚ) (bg : ℕ → ℚ → ℚ → List ℚ) (sc : ScalesArg)
      (v : GridsVal), sp.variant = .finite a b →
      sp.grids bg sc = .ok v → ∃ g, v = .arr g) ∧
    finAxis1.grids bgZero (.tuple [1, 1]) =
      .ok (.arr (List.replicate 6 (1/2 : ℚ))) := by
  refine ⟨fun d axis bg sc => ⟨[0], rfl⟩, ?_, ?_, ?_,
    by with_unfolding_all rfl⟩
  · intro sp k bg sc v hv hok
    simp only [Space.grids, hv] at hok
    cases hgs : sp.grid_shape sc with
    | error m => rw [hgs, bind_error_eq] at hok; cases hok
    | ok gs =>
        rw [hgs, bind_ok_eq] at hok
        cases gs with
        | nil => cases hok
        | cons N rest =>
            cases hc : sp.cov with
            | none => rw [hc] at hok; cases hok
            | some cov =>
                rw [hc] at hok
                exact ⟨_, (Except.ok.inj hok).symm⟩
  · intro sp k bg sc v hv hok
    simp only [Space.grids, hv] at hok
    cases hgs : sp.grid_shape sc with
    | error m => rw [hgs, bind_error_eq] at hok; cases hok
    | ok gs =>
        rw [hgs, bind_ok_eq] at hok
        cases gs with
        | nil => cases hok
        | cons N rest =>
            cases hc : sp.cov with
            | none => rw [hc] at hok; cases hok
            | some cov =>
                rw [hc] at hok
                exact ⟨_, (Except.ok.inj hok).symm⟩
  · intro sp a b bg sc v hv hok
    simp only [Space.grids, hv] at hok
    cases hgs : sp.grid_shape sc with
    | error m => rw [hgs, bind_error_eq] at hok; cases hok
    | ok gs =>
        rw [hgs, bind_ok_eq] at hok
        cases gs with
        | nil => cases hok
        | cons N rest =>
            cases hc : sp.cov with
            | none => rw [hc] at hok; cases hok
            | some cov =>
                rw [hc] at hok
                exact ⟨_, (Except.ok.inj hok).symm⟩

/-- C3 witness: the finite-interval conjunct applied at the concrete
space `finAxis1`, whose grids call returns the bare array. -/
theorem C3_witness :
    ∃ g, GridsVal.arr (List.replicate 6 (1/2 : ℚ)) = .arr g :=
  C3_grids_tuple_shape.2.2.2.1 finAxis1 0 0 bgZero (.tuple [1, 1])
    (.arr (List.replicate 6 (1/2 : ℚ))) (by with_unfolding_all rfl)
    (by with_unfolding_all rfl)

end Dedalus
